import Mathlib

/-!
Verification of the key-reconciliation engine and the dialog-driven action
flows of the options-page controller (package `optionsui`).

The pure reconciliation function `mergeKeys` is embedded directly from the
source.  Go strings are compared byte-wise; for the ASCII/UTF-8 data involved
this coincides with code-point order, which `strLtb` implements executably.
Go's `sort.Slice` is modelled by `List.insertionSort` with the source's
comparator: `sort.Slice` guarantees a sorted permutation (and uses insertion
sort on short slices), and no theorem below depends on more than that.

The stateful UI flows (`add`, `load`, `unload`, `remove`) are embedded as
functions producing the ordered trace of primitive DOM/backend effects the
Go code performs, with the user's dialog decision and the backend result as
explicit parameters; a fold interprets traces over an explicit UI state.
-/

/-- Byte-wise (equivalently code-point-wise) lexicographic strict comparison
of character lists, as Go's `<` on strings. -/
def strLtb : List Char → List Char → Bool
  | _, [] => false
  | [], _ :: _ => true
  | a :: as, b :: bs =>
    if a < b then true
    else if b < a then false
    else strLtb as bs

/-- Go's `<` on strings. -/
def strLt (s t : String) : Bool :=
  strLtb s.data t.data

/-- Modelled from the spec: `keys.ID` is an opaque string assigned by the
backend (the `keys` package is outside the embedded source). -/
def ID := String

instance : DecidableEq ID := fun a b => (inferInstance : DecidableEq String) a b

/-- Modelled from the spec: `keys.InvalidID` is the sentinel meaning "no
corresponding configured entry".  It must be the zero value of the string
type for the source to be coherent: `mergeKeys` leaves the `ID` field of an
unmatched displayed key at its zero value and the renderer compares that
field against `keys.InvalidID`. -/
def InvalidID : String := ""

/-- A configured (persisted) key: `keys.ConfiguredKey`. -/
structure ConfiguredKey where
  ID : String
  Name : String
  Encrypted : Bool
  deriving DecidableEq

/-- A key currently loaded in the agent: `keys.LoadedKey`.  Modelled from the
spec: the backend may derive an id for a loaded key (content fingerprint) or
may not; `id` is that derived id, with `InvalidID` meaning "none derivable".
`blob` is the raw public-key bytes. -/
structure LoadedKey where
  type : String
  blob : List Nat
  id : String
  deriving DecidableEq

/-- A key displayed in the UI: struct `displayedKey` of the source. -/
structure displayedKey where
  ID : String
  Loaded : Bool
  Encrypted : Bool
  Name : String
  type : String
  Blob : String
  deriving DecidableEq

/-- Alphabet of `base64.StdEncoding`. -/
def base64Chars : String :=
  "ABCDEFGHIJKLMNOPQRSTUVWXYZabcdefghijklmnopqrstuvwxyz0123456789+/"

/-- Character of the standard base64 alphabet at index `n`. -/
def b64char (n : Nat) : Char :=
  base64Chars.data.getD n 'A'

/-- Go's `base64.StdEncoding.EncodeToString` over a byte list. -/
def base64Encode : List Nat → String
  | [] => ""
  | [a] =>
    let a := a % 256
    String.mk [b64char (a / 4), b64char (a % 4 * 16), '=', '=']
  | [a, b] =>
    let a := a % 256
    let b := b % 256
    String.mk [b64char (a / 4), b64char (a % 4 * 16 + b / 16), b64char (b % 16 * 4), '=']
  | a :: b :: c :: rest =>
    let x := a % 256
    let y := b % 256
    let z := c % 256
    String.mk [b64char (x / 4), b64char (x % 4 * 16 + y / 16),
               b64char (y % 16 * 4 + z / 64), b64char (z % 64)] ++ base64Encode rest

/-- The configured-key index of `mergeKeys` (`configuredMap`): a Go map built
by iterating the list, so a later entry with the same id overrides an earlier
one.  Lookup therefore returns the last matching element. -/
def configuredLookup : List ConfiguredKey → String → Option ConfiguredKey
  | [], _ => none
  | k :: rest, i =>
    match configuredLookup rest i with
    | some r => some r
    | none => if k.ID = i then some k else none

/-- The displayed key `mergeKeys` builds for one loaded key: basic fields
always set; id and name filled from the configured index when the derived id
is valid and present there. -/
def displayLoaded (configured : List ConfiguredKey) (l : LoadedKey) : displayedKey :=
  let dk : displayedKey :=
    { ID := InvalidID, Loaded := true, Encrypted := false,
      Name := "", type := l.type, Blob := base64Encode l.blob }
  if l.id ≠ InvalidID then
    match configuredLookup configured l.id with
    | some ak => { dk with ID := l.id, Name := ak.Name }
    | none => dk
  else dk

/-- Membership in the `loadedIds` set of `mergeKeys`: an id is recorded
exactly when some loaded key derives it, it is valid, and it occurs in the
configured index. -/
def isLoadedId (configured : List ConfiguredKey) (loaded : List LoadedKey) (i : String) : Bool :=
  loaded.any fun l =>
    (l.id == i) && (l.id != InvalidID) && (configuredLookup configured l.id).isSome

/-- The displayed key `mergeKeys` builds for a configured key that is not
loaded. -/
def displayConfigured (a : ConfiguredKey) : displayedKey :=
  { ID := a.ID, Loaded := false, Encrypted := a.Encrypted,
    Name := a.Name, type := "", Blob := "" }

/-- The `result` list of `mergeKeys` before the final sort: one entry per
loaded key, then one entry per configured key whose id was not recorded in
`loadedIds`. -/
def mergeKeysUnsorted (configured : List ConfiguredKey) (loaded : List LoadedKey) :
    List displayedKey :=
  loaded.map (displayLoaded configured) ++
    (configured.filter fun a => !isLoadedId configured loaded a.ID).map displayConfigured

/-- The comparison closure passed to `sort.Slice` in `mergeKeys`:
lexicographic by (Name, Blob, ID). -/
def dkLt (a b : displayedKey) : Bool :=
  if strLt a.Name b.Name then true
  else if strLt b.Name a.Name then false
  else if strLt a.Blob b.Blob then true
  else if strLt b.Blob a.Blob then false
  else strLt a.ID b.ID

/-- The non-strict total preorder induced by the sort comparator: `a` may
stay before `b` exactly when `b` is not strictly smaller. -/
def dkLeP (a b : displayedKey) : Prop :=
  dkLt b a = false

instance : DecidableRel dkLeP := fun _ _ => inferInstanceAs (Decidable (_ = false))

/-- `mergeKeys` merges configured and loaded keys into the consolidated,
sorted list displayed in the UI. -/
def mergeKeys (configured : List ConfiguredKey) (loaded : List LoadedKey) :
    List displayedKey :=
  List.insertionSort dkLeP (mergeKeysUnsorted configured loaded)

/-! ## Trace model of the dialog-driven action flows

Each flow of the source (`UI.add`, `UI.load`, `UI.unload`, `UI.remove`)
performs a straight-line sequence of primitive DOM and backend operations,
branching only on the user's dialog decision and on the backend result.  The
flows are embedded as functions of those decisions producing the ordered
list of effects performed.  A click handler that reads an input element's
current value takes that value as a parameter. -/

/-- The three modal dialogs of the options page. -/
inductive Dialog where
  | add
  | passphrase
  | remove
  deriving DecidableEq

/-- The input elements holding user-typed text. -/
inductive InputField where
  | addName
  | addKey
  | passphraseInput
  deriving DecidableEq

/-- The dialog controls whose click handlers are released on resolution. -/
inductive Control where
  | addOk
  | addCancel
  | passphraseOk
  | passphraseCancel
  | removeYes
  | removeNo
  deriving DecidableEq

/-- The asynchronous backend operations of `keys.Manager` the flows invoke. -/
inductive BackendCall where
  | add (name privateKey : String)
  | load (id : String) (passphrase : String)
  | unload (key : LoadedKey)
  | remove (id : String)
  deriving DecidableEq

/-- One primitive effect performed by a flow, in program order. -/
inductive Eff where
  /-- `dom.ShowModal` on a dialog. -/
  | showModal (d : Dialog)
  /-- `dom.SetValue` on an input element. -/
  | setValue (f : InputField) (v : String)
  /-- `dom.RemoveEventListeners` on a control. -/
  | removeListeners (c : Control)
  /-- `dom.Close` on a dialog. -/
  | closeDialog (d : Dialog)
  /-- `UI.setError`: `none` clears the error text, `some m` displays `m`. -/
  | setError (e : Option String)
  /-- Invocation of a `keys.Manager` operation. -/
  | callBackend (c : BackendCall)
  /-- `UI.updateKeys`: refetch configured/loaded keys and rebuild the list. -/
  | updateKeys
  /-- Replacing the text content of the `removeName` element. -/
  | setRemoveName (v : String)
  deriving DecidableEq

/-- `UI.promptAdd`: shows the add dialog; the firing handler reads the
current values `n`, `k` of the name/key inputs, clears both inputs, releases
both handlers, closes the dialog and invokes the callback — with the read
values on the OK path and with empty strings on the cancel path. -/
def promptAdd (callback : String → String → Bool → List Eff) (n k : String)
    (okClicked : Bool) : List Eff :=
  Eff.showModal .add ::
    if okClicked then
      [Eff.setValue .addName "", Eff.setValue .addKey "",
       Eff.removeListeners .addOk, Eff.removeListeners .addCancel,
       Eff.closeDialog .add] ++ callback n k true
    else
      [Eff.setValue .addName "", Eff.setValue .addKey "",
       Eff.removeListeners .addOk, Eff.removeListeners .addCancel,
       Eff.closeDialog .add] ++ callback "" "" false

/-- `UI.promptPassphrase`: same shape for the passphrase dialog. -/
def promptPassphrase (callback : String → Bool → List Eff) (p : String)
    (okClicked : Bool) : List Eff :=
  Eff.showModal .passphrase ::
    if okClicked then
      [Eff.setValue .passphraseInput "",
       Eff.removeListeners .passphraseOk, Eff.removeListeners .passphraseCancel,
       Eff.closeDialog .passphrase] ++ callback p true
    else
      [Eff.setValue .passphraseInput "",
       Eff.removeListeners .passphraseOk, Eff.removeListeners .passphraseCancel,
       Eff.closeDialog .passphrase] ++ callback "" false

/-- `UI.promptRemove`: fills the name into the confirmation dialog, shows it;
the firing handler clears the name text, releases both handlers, closes the
dialog and invokes the callback with the decision. -/
def promptRemove (name : String) (callback : Bool → List Eff)
    (yesClicked : Bool) : List Eff :=
  Eff.setRemoveName name :: Eff.showModal .remove ::
    if yesClicked then
      [Eff.setRemoveName "", Eff.removeListeners .removeYes,
       Eff.removeListeners .removeNo, Eff.closeDialog .remove] ++ callback true
    else
      [Eff.setRemoveName "", Eff.removeListeners .removeYes,
       Eff.removeListeners .removeNo, Eff.closeDialog .remove] ++ callback false

/-- The shared tail of every flow's backend callback: on failure display the
action-prefixed error, on success clear the error and refresh the key list.
`res` is `none` on success and `some msg` when the backend reported `msg`. -/
def backendDone (actionMsg : String) (res : Option String) : List Eff :=
  match res with
  | some msg => [Eff.setError (some (actionMsg ++ msg))]
  | none => [Eff.setError none, Eff.updateKeys]

/-- `UI.add`: prompt for name and private key; on OK invoke `mgr.Add`. -/
def addFlow (n k : String) (okClicked : Bool) (res : Option String) : List Eff :=
  promptAdd
    (fun name privateKey ok =>
      if ok then
        Eff.callBackend (.add name privateKey) :: backendDone "failed to add key: " res
      else [])
    n k okClicked

/-- `UI.load`: when the key is encrypted, prompt for a passphrase; otherwise
bypass the dialog with a dummy callback delivering `("", true)`.  On OK
invoke `mgr.Load` with the passphrase. -/
def loadFlow (id : String) (encrypted : Bool) (p : String) (okClicked : Bool)
    (res : Option String) : List Eff :=
  let callback := fun passphrase (ok : Bool) =>
    if ok then
      Eff.callBackend (.load id passphrase) :: backendDone "failed to load key: " res
    else []
  if encrypted then promptPassphrase callback p okClicked
  else callback "" true

/-- `UI.unload`: no dialog; invoke `mgr.Unload` directly. -/
def unloadFlow (key : LoadedKey) (res : Option String) : List Eff :=
  Eff.callBackend (.unload key) :: backendDone "failed to unload key: " res

/-- `UI.remove`: prompt for confirmation; on Yes invoke `mgr.Remove`. -/
def removeFlow (id : String) (name : String) (yesClicked : Bool)
    (res : Option String) : List Eff :=
  promptRemove name
    (fun yes =>
      if yes then
        Eff.callBackend (.remove id) :: backendDone "failed to remove key: " res
      else [])
    yesClicked

/-- The observable UI state the effects act on. -/
structure UIState where
  /-- Text content of the error element; `""` when no error is shown. -/
  errorText : String
  /-- The reconciled display list currently rendered. -/
  displayed : List displayedKey
  /-- Current value of the add-dialog name input. -/
  addNameVal : String
  /-- Current value of the add-dialog private-key input. -/
  addKeyVal : String
  /-- Current value of the passphrase input. -/
  passphraseVal : String
  /-- Text content of the remove-confirmation name element. -/
  removeNameText : String
  deriving DecidableEq

/-- Interpretation of one effect.  `fresh` is the reconciled list a
`UI.updateKeys` refresh would install (it also clears the error, as the
source's `updateKeys` does on its success path). -/
def applyEff (fresh : List displayedKey) (s : UIState) : Eff → UIState
  | .showModal _ => s
  | .setValue .addName v => { s with addNameVal := v }
  | .setValue .addKey v => { s with addKeyVal := v }
  | .setValue .passphraseInput v => { s with passphraseVal := v }
  | .removeListeners _ => s
  | .closeDialog _ => s
  | .setError none => { s with errorText := "" }
  | .setError (some m) => { s with errorText := m }
  | .callBackend _ => s
  | .updateKeys => { s with errorText := "", displayed := fresh }
  | .setRemoveName v => { s with removeNameText := v }

/-- Runs a trace of effects over a state. -/
def runTrace (fresh : List displayedKey) (s : UIState) (t : List Eff) : UIState :=
  t.foldl (applyEff fresh) s

/-- An effect that only manipulates dialog chrome: it touches neither the
error slot, nor the displayed list, nor the backend. -/
def Eff.isDialogOp : Eff → Bool
  | .showModal _ => true
  | .setValue _ _ => true
  | .removeListeners _ => true
  | .closeDialog _ => true
  | .setRemoveName _ => true
  | _ => false

/-- An effect that invokes the backend. -/
def Eff.isBackend : Eff → Bool
  | .callBackend _ => true
  | _ => false

/-- An effect that writes the error slot (`UI.setError`). -/
def Eff.isErrOp : Eff → Bool
  | .setError _ => true
  | _ => false

/-- An effect that opens a modal dialog. -/
def Eff.isShowModal : Eff → Bool
  | .showModal _ => true
  | _ => false

/-! ## Order-theoretic facts about the sort comparator -/

theorem strLtb_irrefl : ∀ s : List Char, strLtb s s = false
  | [] => rfl
  | a :: as => by simp [strLtb, lt_irrefl, strLtb_irrefl as]

theorem strLtb_asymm : ∀ {s t : List Char}, strLtb s t = true → strLtb t s = false
  | [], [], h => by simp [strLtb] at h
  | [], _ :: _, _ => rfl
  | _ :: _, [], h => by simp [strLtb] at h
  | a :: as, b :: bs, h => by
    rcases lt_trichotomy a b with hab | hab | hab
    · simp [strLtb, hab, lt_asymm hab]
    · subst hab
      simp only [strLtb, lt_irrefl, if_false] at h ⊢
      exact strLtb_asymm h
    · simp [strLtb, hab, lt_asymm hab] at h

theorem strLtb_eq_of_not : ∀ {s t : List Char},
    strLtb s t = false → strLtb t s = false → s = t
  | [], [], _, _ => rfl
  | [], _ :: _, h, _ => by simp [strLtb] at h
  | _ :: _, [], _, h => by simp [strLtb] at h
  | a :: as, b :: bs, h1, h2 => by
    rcases lt_trichotomy a b with hab | hab | hab
    · simp [strLtb, hab] at h1
    · subst hab
      simp only [strLtb, lt_irrefl, if_false] at h1 h2
      rw [strLtb_eq_of_not h1 h2]
    · simp [strLtb, hab] at h2

theorem strLtb_trans : ∀ {s t u : List Char},
    strLtb s t = true → strLtb t u = true → strLtb s u = true
  | _, t, [], _, h2 => by cases t <;> simp [strLtb] at h2
  | [], _ :: _, _ :: _, _, _ => rfl
  | _ :: _, [], _ :: _, h1, _ => by simp [strLtb] at h1
  | a :: as, b :: bs, c :: cs, h1, h2 => by
    rcases lt_trichotomy a b with hab | hab | hab
    · rcases lt_trichotomy b c with hbc | hbc | hbc
      · simp [strLtb, lt_trans hab hbc]
      · subst hbc; simp [strLtb, hab]
      · simp [strLtb, hbc, lt_asymm hbc] at h2
    · subst hab
      simp only [strLtb, lt_irrefl, if_false] at h1
      rcases lt_trichotomy a c with hac | hac | hac
      · simp [strLtb, hac]
      · subst hac
        simp only [strLtb, lt_irrefl, if_false] at h2 ⊢
        exact strLtb_trans h1 h2
      · simp [strLtb, hac, lt_asymm hac] at h2
    · simp [strLtb, hab, lt_asymm hab] at h1

theorem strLt_irrefl (s : String) : strLt s s = false :=
  strLtb_irrefl s.data

theorem strLt_asymm {s t : String} (h : strLt s t = true) : strLt t s = false :=
  strLtb_asymm h

theorem strLt_eq_of_not {s t : String} (h1 : strLt s t = false)
    (h2 : strLt t s = false) : s = t :=
  String.ext (strLtb_eq_of_not h1 h2)

theorem strLt_trans {s t u : String} (h1 : strLt s t = true)
    (h2 : strLt t u = true) : strLt s u = true :=
  strLtb_trans h1 h2

theorem dkLt_eq_true_iff {a b : displayedKey} : dkLt a b = true ↔
    strLt a.Name b.Name = true ∨
      (a.Name = b.Name ∧ (strLt a.Blob b.Blob = true ∨
        (a.Blob = b.Blob ∧ strLt a.ID b.ID = true))) := by
  unfold dkLt
  cases hab : strLt a.Name b.Name with
  | true => simp [hab]
  | false =>
    cases hba : strLt b.Name a.Name with
    | true =>
      have hne : ¬a.Name = b.Name := fun he => by
        rw [he] at hba; simp [strLt_irrefl] at hba
      simp [hab, hba, hne]
    | false =>
      have he : a.Name = b.Name := strLt_eq_of_not hab hba
      cases hcd : strLt a.Blob b.Blob with
      | true => simp [hab, hba, hcd, he]
      | false =>
        cases hdc : strLt b.Blob a.Blob with
        | true =>
          have hne : ¬a.Blob = b.Blob := fun hbe => by
            rw [hbe] at hdc; simp [strLt_irrefl] at hdc
          simp [hab, hba, hcd, hdc, he, hne]
        | false =>
          have he2 : a.Blob = b.Blob := strLt_eq_of_not hcd hdc
          simp [hab, hba, hcd, hdc, he, he2]

theorem dkLt_asymm {a b : displayedKey} (h : dkLt a b = true) : dkLt b a = false := by
  rw [dkLt_eq_true_iff] at h
  rw [Bool.eq_false_iff, Ne, dkLt_eq_true_iff]
  rintro (h' | ⟨he', h'⟩)
  · rcases h with h | ⟨he, _⟩
    · rw [strLt_asymm h] at h'; exact Bool.false_ne_true h'
    · rw [he, strLt_irrefl] at h'; exact Bool.false_ne_true h'
  · rcases h with h | ⟨he, h⟩
    · rw [he', strLt_irrefl] at h; exact Bool.false_ne_true h
    · rcases h' with h' | ⟨he2', h'⟩
      · rcases h with h | ⟨he2, _⟩
        · rw [strLt_asymm h] at h'; exact Bool.false_ne_true h'
        · rw [he2, strLt_irrefl] at h'; exact Bool.false_ne_true h'
      · rcases h with h | ⟨he2, h⟩
        · rw [he2', strLt_irrefl] at h; exact Bool.false_ne_true h
        · rw [strLt_asymm h] at h'; exact Bool.false_ne_true h'

theorem dkLt_false_false {a b : displayedKey} (h1 : dkLt a b = false)
    (h2 : dkLt b a = false) : a.Name = b.Name ∧ a.Blob = b.Blob ∧ a.ID = b.ID := by
  have not1 : ¬dkLt a b = true := by simp [h1]
  have not2 : ¬dkLt b a = true := by simp [h2]
  rw [dkLt_eq_true_iff] at not1 not2
  have hname : a.Name = b.Name := by
    cases hx : strLt a.Name b.Name with
    | true => exact absurd (Or.inl hx) not1
    | false =>
      cases hy : strLt b.Name a.Name with
      | true => exact absurd (Or.inl hy) not2
      | false => exact strLt_eq_of_not hx hy
  have hblob : a.Blob = b.Blob := by
    cases hx : strLt a.Blob b.Blob with
    | true => exact absurd (Or.inr ⟨hname, Or.inl hx⟩) not1
    | false =>
      cases hy : strLt b.Blob a.Blob with
      | true => exact absurd (Or.inr ⟨hname.symm, Or.inl hy⟩) not2
      | false => exact strLt_eq_of_not hx hy
  have hid : a.ID = b.ID := by
    cases hx : strLt a.ID b.ID with
    | true => exact absurd (Or.inr ⟨hname, Or.inr ⟨hblob, hx⟩⟩) not1
    | false =>
      cases hy : strLt b.ID a.ID with
      | true => exact absurd (Or.inr ⟨hname.symm, Or.inr ⟨hblob.symm, hy⟩⟩) not2
      | false => exact strLt_eq_of_not hx hy
  exact ⟨hname, hblob, hid⟩

theorem dkLt_trans {a b c : displayedKey} (h1 : dkLt a b = true)
    (h2 : dkLt b c = true) : dkLt a c = true := by
  rw [dkLt_eq_true_iff] at h1 h2 ⊢
  rcases h1 with h1 | ⟨he1, h1⟩
  · rcases h2 with h2 | ⟨he2, _⟩
    · exact Or.inl (strLt_trans h1 h2)
    · exact Or.inl (he2 ▸ h1)
  · rcases h2 with h2 | ⟨he2, h2⟩
    · exact Or.inl (he1 ▸ h2)
    · refine Or.inr ⟨he1.trans he2, ?_⟩
      rcases h1 with h1 | ⟨hb1, h1⟩
      · rcases h2 with h2 | ⟨hb2, _⟩
        · exact Or.inl (strLt_trans h1 h2)
        · exact Or.inl (hb2 ▸ h1)
      · rcases h2 with h2 | ⟨hb2, h2⟩
        · exact Or.inl (hb1 ▸ h2)
        · exact Or.inr ⟨hb1.trans hb2, strLt_trans h1 h2⟩

theorem dkLt_congr_right {a b : displayedKey} (c : displayedKey)
    (hn : a.Name = b.Name) (hb : a.Blob = b.Blob) (hi : a.ID = b.ID) :
    dkLt c a = dkLt c b := by
  unfold dkLt
  rw [hn, hb, hi]

instance : IsTotal displayedKey dkLeP where
  total a b := by
    unfold dkLeP
    cases h : dkLt b a with
    | false => exact Or.inl rfl
    | true => exact Or.inr (dkLt_asymm h)

instance : IsTrans displayedKey dkLeP where
  trans a b c hab hbc := by
    unfold dkLeP at hab hbc ⊢
    cases h : dkLt c a with
    | false => rfl
    | true =>
      cases h1 : dkLt a b with
      | true => rw [dkLt_trans h h1] at hbc; exact hbc
      | false =>
        obtain ⟨hn, hb, hi⟩ := dkLt_false_false h1 hab
        rw [dkLt_congr_right c hn hb hi] at h
        rw [h] at hbc
        exact hbc

theorem mergeKeys_pairwise (configured : List ConfiguredKey) (loaded : List LoadedKey) :
    (mergeKeys configured loaded).Pairwise dkLeP :=
  List.sorted_insertionSort dkLeP (mergeKeysUnsorted configured loaded)

theorem dkLeP_lex {a b : displayedKey} (h : dkLeP a b) :
    strLt a.Name b.Name = true ∨
      (a.Name = b.Name ∧ (strLt a.Blob b.Blob = true ∨
        (a.Blob = b.Blob ∧ (strLt a.ID b.ID = true ∨ a.ID = b.ID)))) := by
  unfold dkLeP at h
  cases h1 : dkLt a b with
  | true =>
    rcases dkLt_eq_true_iff.mp h1 with h2 | ⟨he, h2⟩
    · exact Or.inl h2
    · rcases h2 with h2 | ⟨he2, h2⟩
      · exact Or.inr ⟨he, Or.inl h2⟩
      · exact Or.inr ⟨he, Or.inr ⟨he2, Or.inl h2⟩⟩
  | false =>
    obtain ⟨hn, hb, hi⟩ := dkLt_false_false h1 h
    exact Or.inr ⟨hn, Or.inr ⟨hb, Or.inr hi⟩⟩

/-- C1 (amended): the list returned by `mergeKeys` is sorted non-decreasingly
in the lexicographic order on the triple (name, blob, id): whenever entry `i`
precedes entry `j`, either entry `i`'s name is smaller, or the names are equal
and its blob is smaller, or names and blobs are equal and its id is smaller or
equal.  (The original "exactly when" biconditional fails for entries whose
whole triples coincide while another field differs.) -/
theorem mergeKeys_sorted_lex (configured : List ConfiguredKey) (loaded : List LoadedKey) :
    (mergeKeys configured loaded).Pairwise fun a b =>
      strLt a.Name b.Name = true ∨
        (a.Name = b.Name ∧ (strLt a.Blob b.Blob = true ∨
          (a.Blob = b.Blob ∧ (strLt a.ID b.ID = true ∨ a.ID = b.ID)))) :=
  (mergeKeys_pairwise configured loaded).imp dkLeP_lex

/-- C1 (counterexample): two loaded keys with equal blobs and no derivable
ids produce two distinct displayed entries with identical (name, blob, id)
triples (their types differ); the first precedes the second, yet its triple
is not lexicographically smaller (`dkLt` is the triple comparison, see
`dkLt_eq_true_iff`), refuting the claimed "exactly when". -/
theorem mergeKeys_strict_precede_cex :
    (mergeKeys [] [⟨"a", [0], ""⟩, ⟨"b", [0], ""⟩]).length = 2 ∧
    ((mergeKeys [] [⟨"a", [0], ""⟩, ⟨"b", [0], ""⟩]).getD 0 ⟨"", false, false, "", "", ""⟩ ≠
      (mergeKeys [] [⟨"a", [0], ""⟩, ⟨"b", [0], ""⟩]).getD 1 ⟨"", false, false, "", "", ""⟩) ∧
    dkLt ((mergeKeys [] [⟨"a", [0], ""⟩, ⟨"b", [0], ""⟩]).getD 0 ⟨"", false, false, "", "", ""⟩)
      ((mergeKeys [] [⟨"a", [0], ""⟩, ⟨"b", [0], ""⟩]).getD 1 ⟨"", false, false, "", "", ""⟩) = false := by
  refine ⟨by decide, by decide, by decide⟩

/-! ## Characterisation of the configured-key index -/

theorem configuredLookup_mem : ∀ {cs : List ConfiguredKey} {i : String} {k : ConfiguredKey},
    configuredLookup cs i = some k → k ∈ cs ∧ k.ID = i
  | [], _, _, h => by simp [configuredLookup] at h
  | c :: rest, i, k, h => by
    simp only [configuredLookup] at h
    cases hrest : configuredLookup rest i with
    | some r =>
      rw [hrest] at h
      obtain ⟨hm, hid⟩ := configuredLookup_mem hrest
      cases h
      exact ⟨List.mem_cons_of_mem c hm, hid⟩
    | none =>
      rw [hrest] at h
      by_cases hc : c.ID = i
      · simp only [hc, if_pos rfl] at h
        cases h
        exact ⟨List.mem_cons_self c rest, hc⟩
      · simp [hc] at h

theorem configuredLookup_eq_none_iff {cs : List ConfiguredKey} {i : String} :
    configuredLookup cs i = none ↔ ∀ k ∈ cs, k.ID ≠ i := by
  induction cs with
  | nil => simp [configuredLookup]
  | cons c rest ih =>
    constructor
    · intro h k hk hki
      simp only [configuredLookup] at h
      cases hrest : configuredLookup rest i with
      | some r => rw [hrest] at h; exact absurd h (by simp)
      | none =>
        rcases List.mem_cons.mp hk with rfl | hk2
        · rw [hrest, if_pos hki] at h
          exact absurd h (by simp)
        · exact (ih.mp hrest) k hk2 hki
    · intro h
      simp only [configuredLookup]
      have hrest : configuredLookup rest i = none :=
        ih.mpr fun k hk => h k (List.mem_cons_of_mem c hk)
      rw [hrest, if_neg (h c (List.mem_cons_self c rest))]

theorem configuredLookup_isSome_iff {cs : List ConfiguredKey} {i : String} :
    (configuredLookup cs i).isSome = true ↔ ∃ k ∈ cs, k.ID = i := by
  cases h : configuredLookup cs i with
  | some k =>
    simp only [Option.isSome_some, true_iff]
    obtain ⟨hm, hid⟩ := configuredLookup_mem h
    exact ⟨k, hm, hid⟩
  | none =>
    simp only [Option.isSome_none, Bool.false_eq_true, false_iff, not_exists]
    have := configuredLookup_eq_none_iff.mp h
    intro k hk
    exact this k hk.1 hk.2

theorem configuredLookup_nodup_eq_some {cs : List ConfiguredKey} {i : String}
    {k : ConfiguredKey} (hnd : (cs.map ConfiguredKey.ID).Nodup)
    (hk : k ∈ cs) (hik : k.ID = i) : configuredLookup cs i = some k := by
  induction cs with
  | nil => cases hk
  | cons c rest ih =>
    simp only [List.map_cons, List.nodup_cons] at hnd
    obtain ⟨hcnot, hndrest⟩ := hnd
    simp only [configuredLookup]
    rcases List.mem_cons.mp hk with rfl | hk2
    · have hrest : configuredLookup rest i = none := by
        rw [configuredLookup_eq_none_iff]
        intro x hx hxi
        exact hcnot (by
          rw [← hik] at hxi
          rw [← hxi]
          exact List.mem_map_of_mem ConfiguredKey.ID hx)
      rw [hrest, hik]
      simp
    · rw [ih hndrest hk2]

/-! ## Permutation invariance of the reconciliation -/

theorem any_perm {α : Type} {l₁ l₂ : List α} (h : l₁.Perm l₂) (p : α → Bool) :
    l₁.any p = l₂.any p := by
  cases h1 : l₁.any p with
  | true =>
    obtain ⟨x, hx, hpx⟩ := List.any_eq_true.mp h1
    exact (List.any_eq_true.mpr ⟨x, h.mem_iff.mp hx, hpx⟩).symm
  | false =>
    cases h2 : l₂.any p with
    | true =>
      obtain ⟨x, hx, hpx⟩ := List.any_eq_true.mp h2
      rw [List.any_eq_true.mpr ⟨x, h.mem_iff.mpr hx, hpx⟩] at h1
      exact h1.symm
    | false => rfl

theorem configuredLookup_perm {cs cs' : List ConfiguredKey}
    (hnd : (cs.map ConfiguredKey.ID).Nodup) (hp : cs.Perm cs') (i : String) :
    configuredLookup cs i = configuredLookup cs' i := by
  have hnd' : (cs'.map ConfiguredKey.ID).Nodup := (hp.map ConfiguredKey.ID).nodup hnd
  cases h : configuredLookup cs i with
  | some k =>
    obtain ⟨hm, hik⟩ := configuredLookup_mem h
    exact (configuredLookup_nodup_eq_some hnd' (hp.mem_iff.mp hm) hik).symm
  | none =>
    have hall := configuredLookup_eq_none_iff.mp h
    exact (configuredLookup_eq_none_iff.mpr fun k hk => hall k (hp.mem_iff.mpr hk)).symm

theorem displayLoaded_congr {cs cs' : List ConfiguredKey}
    (h : ∀ i, configuredLookup cs i = configuredLookup cs' i) (l : LoadedKey) :
    displayLoaded cs l = displayLoaded cs' l := by
  unfold displayLoaded
  rw [h l.id]

theorem isLoadedId_congr {cs cs' : List ConfiguredKey} {ls ls' : List LoadedKey}
    (hlk : ∀ i, configuredLookup cs i = configuredLookup cs' i)
    (hl : ls.Perm ls') (i : String) : isLoadedId cs ls i = isLoadedId cs' ls' i := by
  unfold isLoadedId
  have hfun : (fun l : LoadedKey =>
      (l.id == i) && (l.id != InvalidID) && (configuredLookup cs l.id).isSome) =
      fun l => (l.id == i) && (l.id != InvalidID) && (configuredLookup cs' l.id).isSome := by
    funext l
    rw [hlk l.id]
  rw [hfun]
  exact any_perm hl _

theorem mergeKeysUnsorted_perm {cs cs' : List ConfiguredKey} {ls ls' : List LoadedKey}
    (hc : cs.Perm cs') (hl : ls.Perm ls') (hnd : (cs.map ConfiguredKey.ID).Nodup) :
    (mergeKeysUnsorted cs ls).Perm (mergeKeysUnsorted cs' ls') := by
  have hlk := configuredLookup_perm hnd hc
  unfold mergeKeysUnsorted
  apply List.Perm.append
  · have hmap : ls'.map (displayLoaded cs) = ls'.map (displayLoaded cs') :=
      List.map_congr_left fun l _ => displayLoaded_congr hlk l
    exact hmap ▸ hl.map (displayLoaded cs)
  · have hpred : (fun a : ConfiguredKey => !isLoadedId cs ls a.ID) =
        fun a => !isLoadedId cs' ls' a.ID := by
      funext a
      rw [isLoadedId_congr hlk hl a.ID]
    rw [hpred]
    exact (hc.filter _).map displayConfigured

theorem perm_pairwise_asymm_eq {α : Type} {R : α → α → Prop}
    (hasymm : ∀ a b, R a b → R b a → False) :
    ∀ {l₁ l₂ : List α}, l₁.Perm l₂ → l₁.Pairwise R → l₂.Pairwise R → l₁ = l₂
  | [], _, hp, _, _ => hp.symm.eq_nil.symm
  | _ :: _, [], hp, _, _ => by
    have hlen := hp.length_eq
    simp at hlen
  | a :: t₁, b :: t₂, hp, hp1, hp2 => by
    have hab : a = b := by
      rcases List.mem_cons.mp (hp.mem_iff.mp (List.mem_cons_self a t₁)) with h | h
      · exact h
      · have hRba : R b a := (List.pairwise_cons.mp hp2).1 a h
        rcases List.mem_cons.mp (hp.symm.mem_iff.mp (List.mem_cons_self b t₂)) with h' | h'
        · exact h'.symm
        · exact absurd hRba fun hh => hasymm a b ((List.pairwise_cons.mp hp1).1 b h') hh
    subst hab
    rw [perm_pairwise_asymm_eq hasymm hp.cons_inv
      (List.pairwise_cons.mp hp1).2 (List.pairwise_cons.mp hp2).2]

/-- C2 (counterexample): two loaded keys with no derivable ids and equal
blobs but different types tie under the sort key, so permuting the loaded
list permutes the corresponding output entries: the two outputs are not
element-wise equal. -/
theorem mergeKeys_perm_dependent_cex :
    mergeKeys [] [⟨"a", [0], ""⟩, ⟨"b", [0], ""⟩] ≠
      mergeKeys [] [⟨"b", [0], ""⟩, ⟨"a", [0], ""⟩] := by
  decide

/-- C2 (amended): with no duplicate configured ids, permuting either input
list leaves the multiset of entries produced by `mergeKeys` unchanged (the
outputs are permutations of each other), and the outputs are element-wise
identical whenever no two output entries share the whole (name, blob, id)
triple; entries with coinciding triples but differing remaining fields may
appear in either order. -/
theorem mergeKeys_perm_invariance (cs cs' : List ConfiguredKey)
    (ls ls' : List LoadedKey) (hc : cs.Perm cs') (hl : ls.Perm ls')
    (hnd : (cs.map ConfiguredKey.ID).Nodup) :
    (mergeKeys cs ls).Perm (mergeKeys cs' ls') ∧
      ((mergeKeys cs ls).Pairwise
          (fun a b => a.Name ≠ b.Name ∨ a.Blob ≠ b.Blob ∨ a.ID ≠ b.ID) →
        mergeKeys cs ls = mergeKeys cs' ls') := by
  have hperm : (mergeKeys cs ls).Perm (mergeKeys cs' ls') :=
    ((List.perm_insertionSort dkLeP _).trans (mergeKeysUnsorted_perm hc hl hnd)).trans
      (List.perm_insertionSort dkLeP _).symm
  refine ⟨hperm, fun hdist => ?_⟩
  have hs1 := mergeKeys_pairwise cs ls
  have hs2 := mergeKeys_pairwise cs' ls'
  have hsym : ∀ {x y : displayedKey},
      (x.Name ≠ y.Name ∨ x.Blob ≠ y.Blob ∨ x.ID ≠ y.ID) →
      (y.Name ≠ x.Name ∨ y.Blob ≠ x.Blob ∨ y.ID ≠ x.ID) := by
    rintro x y (h | h | h)
    · exact Or.inl (Ne.symm h)
    · exact Or.inr (Or.inl (Ne.symm h))
    · exact Or.inr (Or.inr (Ne.symm h))
  have hdist2 := (hperm.pairwise_iff hsym).mp hdist
  have hstrict : ∀ {x y : displayedKey}, dkLeP x y →
      (x.Name ≠ y.Name ∨ x.Blob ≠ y.Blob ∨ x.ID ≠ y.ID) → dkLt x y = true := by
    intro x y hle hne
    cases h : dkLt x y with
    | true => rfl
    | false =>
      obtain ⟨hn, hb, hi⟩ := dkLt_false_false h hle
      rcases hne with hh | hh | hh
      · exact absurd hn hh
      · exact absurd hb hh
      · exact absurd hi hh
  have hstr1 : (mergeKeys cs ls).Pairwise fun a b => dkLt a b = true :=
    (hs1.and hdist).imp fun h => hstrict h.1 h.2
  have hstr2 : (mergeKeys cs' ls').Pairwise fun a b => dkLt a b = true :=
    (hs2.and hdist2).imp fun h => hstrict h.1 h.2
  exact perm_pairwise_asymm_eq
    (fun a b h1 h2 => by rw [dkLt_asymm h1] at h2; exact Bool.false_ne_true h2)
    hperm hstr1 hstr2

theorem mergeKeys_perm_invariance_witness :
    (mergeKeys [⟨"1", "alice", false⟩] [⟨"ssh-rsa", [0], "1"⟩]).Perm
        (mergeKeys [⟨"1", "alice", false⟩] [⟨"ssh-rsa", [0], "1"⟩]) ∧
      ((mergeKeys [⟨"1", "alice", false⟩] [⟨"ssh-rsa", [0], "1"⟩]).Pairwise
          (fun a b => a.Name ≠ b.Name ∨ a.Blob ≠ b.Blob ∨ a.ID ≠ b.ID) →
        mergeKeys [⟨"1", "alice", false⟩] [⟨"ssh-rsa", [0], "1"⟩] =
          mergeKeys [⟨"1", "alice", false⟩] [⟨"ssh-rsa", [0], "1"⟩]) :=
  mergeKeys_perm_invariance _ _ _ _ (List.Perm.refl _) (List.Perm.refl _) (by decide)

/-! ## Shape of the displayed entries -/

theorem displayLoaded_Loaded (cs : List ConfiguredKey) (l : LoadedKey) :
    (displayLoaded cs l).Loaded = true := by
  unfold displayLoaded
  by_cases h : l.id = InvalidID
  · simp [h]
  · cases hc : configuredLookup cs l.id <;> simp [h, hc]

theorem displayLoaded_Encrypted (cs : List ConfiguredKey) (l : LoadedKey) :
    (displayLoaded cs l).Encrypted = false := by
  unfold displayLoaded
  by_cases h : l.id = InvalidID
  · simp [h]
  · cases hc : configuredLookup cs l.id <;> simp [h, hc]

theorem displayLoaded_ID (cs : List ConfiguredKey) (l : LoadedKey) :
    (displayLoaded cs l).ID = InvalidID ∨ (displayLoaded cs l).ID = l.id := by
  unfold displayLoaded
  by_cases h : l.id = InvalidID
  · simp [h]
  · cases hc : configuredLookup cs l.id <;> simp [h, hc]

theorem displayLoaded_invalid (cs : List ConfiguredKey) (l : LoadedKey)
    (h : l.id = InvalidID) :
    (displayLoaded cs l).ID = InvalidID ∧ (displayLoaded cs l).Name = "" := by
  unfold displayLoaded
  simp [h]

theorem isLoadedId_eq_any {cs : List ConfiguredKey} {ls : List LoadedKey}
    {a : ConfiguredKey} (ha : a ∈ cs) :
    isLoadedId cs ls a.ID = ls.any fun l => (l.id == a.ID) && (l.id != InvalidID) := by
  unfold isLoadedId
  rw [Bool.eq_iff_iff]
  simp only [List.any_eq_true, Bool.and_eq_true, beq_iff_eq, bne_iff_ne]
  constructor
  · rintro ⟨l, hl, ⟨hid, hne⟩, _⟩
    exact ⟨l, hl, hid, hne⟩
  · rintro ⟨l, hl, hid, hne⟩
    exact ⟨l, hl, ⟨hid, hne⟩, configuredLookup_isSome_iff.mpr ⟨a, ha, hid.symm⟩⟩

/-- C3: the output of `mergeKeys` contains exactly one entry per element of
the loaded list plus one entry per configured key whose id is derived by no
loaded key, so its length is the sum of the two counts (coinciding
name/blob never merge entries), and two empty inputs produce an empty
output. -/
theorem mergeKeys_count (cs : List ConfiguredKey) (ls : List LoadedKey) :
    (mergeKeys cs ls).length =
      ls.length + ((cs.filter fun a =>
        !(ls.any fun l => (l.id == a.ID) && (l.id != InvalidID))).length) ∧
    mergeKeys [] [] = [] := by
  constructor
  · show (List.insertionSort dkLeP (mergeKeysUnsorted cs ls)).length = _
    rw [(List.perm_insertionSort dkLeP (mergeKeysUnsorted cs ls)).length_eq]
    unfold mergeKeysUnsorted
    rw [List.length_append, List.length_map, List.length_map]
    congr 1
    exact congrArg List.length (List.filter_congr fun a ha => by rw [isLoadedId_eq_any ha])
  · rfl

/-- C4: a loaded key whose derived id is INVALID, or does not occur among
the configured keys, is displayed with INVALID id, empty name, loaded=true,
and its type and base64-encoded blob — it is never dropped from the
output. -/
theorem mergeKeys_unmatched_loaded_kept (cs : List ConfiguredKey) (ls : List LoadedKey)
    (l : LoadedKey) (hmem : l ∈ ls)
    (h : l.id = InvalidID ∨ ∀ k ∈ cs, k.ID ≠ l.id) :
    ({ ID := InvalidID, Loaded := true, Encrypted := false, Name := "",
        type := l.type, Blob := base64Encode l.blob } : displayedKey) ∈ mergeKeys cs ls := by
  have hd : displayLoaded cs l =
      { ID := InvalidID, Loaded := true, Encrypted := false, Name := "",
        type := l.type, Blob := base64Encode l.blob } := by
    unfold displayLoaded
    rcases h with h | h
    · simp [h]
    · by_cases hz : l.id = InvalidID
      · simp [hz]
      · have hnone : configuredLookup cs l.id = none := configuredLookup_eq_none_iff.mpr h
        simp [hz, hnone]
  show _ ∈ List.insertionSort dkLeP (mergeKeysUnsorted cs ls)
  rw [(List.perm_insertionSort dkLeP (mergeKeysUnsorted cs ls)).mem_iff]
  apply List.mem_append_left
  rw [← hd]
  exact List.mem_map_of_mem (displayLoaded cs) hmem

theorem mergeKeys_unmatched_loaded_kept_witness :
    ((⟨"ssh-ed25519", [1, 2, 3], ""⟩ : LoadedKey) ∈
        ([⟨"ssh-ed25519", [1, 2, 3], ""⟩] : List LoadedKey)) ∧
    ((⟨"ssh-ed25519", [1, 2, 3], ""⟩ : LoadedKey).id = InvalidID ∨
      ∀ k ∈ ([⟨"k1", "alice", false⟩] : List ConfiguredKey),
        k.ID ≠ (⟨"ssh-ed25519", [1, 2, 3], ""⟩ : LoadedKey).id) ∧
    ({ ID := InvalidID, Loaded := true, Encrypted := false, Name := "",
        type := "ssh-ed25519", Blob := base64Encode [1, 2, 3] } : displayedKey) ∈
      mergeKeys [⟨"k1", "alice", false⟩] [⟨"ssh-ed25519", [1, 2, 3], ""⟩] :=
  ⟨by decide, by decide,
    mergeKeys_unmatched_loaded_kept [⟨"k1", "alice", false⟩]
      [⟨"ssh-ed25519", [1, 2, 3], ""⟩] ⟨"ssh-ed25519", [1, 2, 3], ""⟩
      (by decide) (by decide)⟩

/-- C5 (counterexample): two identical loaded keys deriving the same
configured id are both matched against that configured key: the output
carries two entries with the configured key's id and name and loaded=true,
refuting "matched by at most one LoadedKey" for arbitrary inputs. -/
theorem mergeKeys_double_match_cex :
    (mergeKeys [⟨"1", "n", false⟩] [⟨"t", [0], "1"⟩, ⟨"t", [0], "1"⟩]).countP
      (fun dk => (dk.ID == "1") && dk.Loaded && (dk.Name == "n")) = 2 := by
  decide

theorem length_le_one_of_const_nodup {α β : Type} (f : α → β) :
    ∀ {l : List α}, (l.map f).Nodup → ∀ i : β, (∀ x ∈ l, f x = i) → l.length ≤ 1
  | [], _, _, _ => by simp
  | [_], _, _, _ => by simp
  | x :: y :: rest, hnd, i, h => by
    exfalso
    simp only [List.map_cons, List.nodup_cons] at hnd
    have hx : f x = i := h x (List.mem_cons_self _ _)
    have hy : f y = i := h y (List.mem_cons_of_mem x (List.mem_cons_self _ _))
    exact hnd.1 (by rw [hx, ← hy]; exact List.mem_cons_self _ _)

/-- C5 (amended): when no two loaded keys derive the same valid id, each
configured key is matched by at most one loaded key — the output carries at
most one loaded entry with any given valid id — and a loaded key with no
derivable id is always treated as unmatched (INVALID id, empty name). -/
theorem mergeKeys_match_at_most_one (cs : List ConfiguredKey) (ls : List LoadedKey)
    (hnd : ((ls.filter fun l => l.id != InvalidID).map LoadedKey.id).Nodup) :
    (∀ i : String, i ≠ InvalidID →
      (mergeKeys cs ls).countP (fun dk => (dk.ID == i) && dk.Loaded) ≤ 1) ∧
    ∀ l ∈ ls, l.id = InvalidID →
      (displayLoaded cs l).ID = InvalidID ∧ (displayLoaded cs l).Name = "" := by
  constructor
  · intro i hi
    show ((List.insertionSort dkLeP (mergeKeysUnsorted cs ls)).countP _) ≤ 1
    rw [(List.perm_insertionSort dkLeP (mergeKeysUnsorted cs ls)).countP_eq]
    unfold mergeKeysUnsorted
    rw [List.countP_append]
    have hconf : ((cs.filter fun a => !isLoadedId cs ls a.ID).map displayConfigured).countP
        (fun dk => (dk.ID == i) && dk.Loaded) = 0 := by
      rw [List.countP_eq_zero]
      intro dk hdk
      obtain ⟨a, _, rfl⟩ := List.mem_map.mp hdk
      simp [displayConfigured]
    rw [hconf, Nat.add_zero, List.countP_map]
    have hmono : (ls.countP ((fun dk => (dk.ID == i) && dk.Loaded) ∘ displayLoaded cs)) ≤
        ls.countP fun l => (l.id == i) && (l.id != InvalidID) := by
      apply List.countP_mono_left
      intro l _ hl
      simp only [Function.comp_apply, Bool.and_eq_true, beq_iff_eq] at hl
      have hID : (displayLoaded cs l).ID = i := hl.1
      rcases displayLoaded_ID cs l with hc | hc
      · rw [hc] at hID
        exact absurd hID.symm hi
      · rw [hc] at hID
        simp [hID, hi]
    refine le_trans hmono ?_
    rw [List.countP_eq_length_filter, ← List.filter_filter]
    apply length_le_one_of_const_nodup LoadedKey.id
    · exact ((List.filter_sublist _).map LoadedKey.id).nodup hnd
    · intro x hx
      exact beq_iff_eq.mp (List.mem_filter.mp hx).2
  · intro l _ h
    exact displayLoaded_invalid cs l h

theorem mergeKeys_match_at_most_one_witness :
    ("1" : String) ≠ InvalidID ∧
    (mergeKeys [⟨"1", "n", false⟩] [⟨"t", [0], "1"⟩]).countP
      (fun dk => (dk.ID == "1") && dk.Loaded) ≤ 1 :=
  ⟨by decide,
    (mergeKeys_match_at_most_one [⟨"1", "n", false⟩] [⟨"t", [0], "1"⟩]
      (by decide)).1 "1" (by decide)⟩

/-- C10: every entry of the output of `mergeKeys` with loaded=true has
encrypted=false — the Encrypted field is only ever set on entries for
configured keys that are not loaded. -/
theorem mergeKeys_loaded_not_encrypted (cs : List ConfiguredKey) (ls : List LoadedKey)
    (dk : displayedKey) (hmem : dk ∈ mergeKeys cs ls) (hld : dk.Loaded = true) :
    dk.Encrypted = false := by
  rw [show mergeKeys cs ls = List.insertionSort dkLeP (mergeKeysUnsorted cs ls) from rfl,
    (List.perm_insertionSort dkLeP (mergeKeysUnsorted cs ls)).mem_iff] at hmem
  rcases List.mem_append.mp hmem with hmem | hmem
  · obtain ⟨l, _, rfl⟩ := List.mem_map.mp hmem
    exact displayLoaded_Encrypted cs l
  · obtain ⟨a, _, rfl⟩ := List.mem_map.mp hmem
    simp [displayConfigured] at hld

theorem mergeKeys_loaded_not_encrypted_witness :
    (⟨"1", true, false, "n", "t", "AA=="⟩ : displayedKey) ∈
        mergeKeys [⟨"1", "n", false⟩] [⟨"t", [0], "1"⟩] ∧
    (⟨"1", true, false, "n", "t", "AA=="⟩ : displayedKey).Loaded = true ∧
    (⟨"1", true, false, "n", "t", "AA=="⟩ : displayedKey).Encrypted = false :=
  ⟨by decide, by decide,
    mergeKeys_loaded_not_encrypted [⟨"1", "n", false⟩] [⟨"t", [0], "1"⟩]
      ⟨"1", true, false, "n", "t", "AA=="⟩ (by decide) (by decide)⟩

/-! ## Error discipline and dialog behaviour of the action flows -/

/-- C6 (counterexample): starting and then cancelling an Add flow performs
no error-slot operation at all, so a pre-existing error survives the flow —
the flow does not clear the shared error slot at its start. -/
theorem flow_error_not_cleared_cex :
    (runTrace []
        { errorText := "previous error", displayed := [], addNameVal := "",
          addKeyVal := "", passphraseVal := "", removeNameText := "" }
        (addFlow "n" "k" false none)).errorText = "previous error" ∧
    (addFlow "n" "k" false none).all (fun e => !e.isErrOp) = true := by
  exact ⟨rfl, rfl⟩

/-- C6 (amended): no flow touches the error slot when it starts: before the
backend call every effect is a dialog operation, a cancelled flow performs
no error-slot operation and leaves the slot unchanged, and the slot is
written exactly by the backend callback — set to the action-prefixed message
on failure and cleared on success. -/
theorem flow_error_discipline (n k id name p msg : String) (key : LoadedKey)
    (res : Option String) (s : UIState) (fresh : List displayedKey) :
    (((addFlow n k true res).takeWhile fun e => !e.isBackend).all Eff.isDialogOp = true ∧
      ((loadFlow id true p true res).takeWhile fun e => !e.isBackend).all Eff.isDialogOp = true ∧
      ((loadFlow id false p true res).takeWhile fun e => !e.isBackend).all Eff.isDialogOp = true ∧
      ((unloadFlow key res).takeWhile fun e => !e.isBackend).all Eff.isDialogOp = true ∧
      ((removeFlow id name true res).takeWhile fun e => !e.isBackend).all Eff.isDialogOp = true) ∧
    ((addFlow n k false res).all (fun e => !e.isErrOp) = true ∧
      (loadFlow id true p false res).all (fun e => !e.isErrOp) = true ∧
      (removeFlow id name false res).all (fun e => !e.isErrOp) = true ∧
      (runTrace fresh s (addFlow n k false res)).errorText = s.errorText ∧
      (runTrace fresh s (loadFlow id true p false res)).errorText = s.errorText ∧
      (runTrace fresh s (removeFlow id name false res)).errorText = s.errorText) ∧
    ((runTrace fresh s (addFlow n k true (some msg))).errorText =
        "failed to add key: " ++ msg ∧
      (runTrace fresh s (loadFlow id true p true (some msg))).errorText =
        "failed to load key: " ++ msg ∧
      (runTrace fresh s (loadFlow id false p true (some msg))).errorText =
        "failed to load key: " ++ msg ∧
      (runTrace fresh s (unloadFlow key (some msg))).errorText =
        "failed to unload key: " ++ msg ∧
      (runTrace fresh s (removeFlow id name true (some msg))).errorText =
        "failed to remove key: " ++ msg) ∧
    ((runTrace fresh s (addFlow n k true none)).errorText = "" ∧
      (runTrace fresh s (loadFlow id true p true none)).errorText = "" ∧
      (runTrace fresh s (loadFlow id false p true none)).errorText = "" ∧
      (runTrace fresh s (unloadFlow key none)).errorText = "" ∧
      (runTrace fresh s (removeFlow id name true none)).errorText = "") := by
  refine ⟨⟨?_, ?_, ?_, ?_, ?_⟩, ⟨rfl, rfl, rfl, rfl, rfl, rfl⟩,
    ⟨rfl, rfl, rfl, rfl, rfl⟩, ⟨rfl, rfl, rfl, rfl, rfl⟩⟩ <;>
    cases res <;> rfl

/-- C7: loading an unencrypted key never opens the passphrase dialog (no
show-modal effect occurs) and immediately calls the backend Load with the
empty passphrase; for an encrypted key the passphrase dialog is shown first,
the backend is called with the passphrase the user typed when the user
confirmed, and no backend call happens when the user cancelled. -/
theorem loadFlow_passphrase_dialog (id p : String) (okClicked : Bool)
    (res : Option String) :
    ((loadFlow id false p okClicked res).head? =
        some (Eff.callBackend (.load id "")) ∧
      (loadFlow id false p okClicked res).all (fun e => !e.isShowModal) = true) ∧
    ((loadFlow id true p true res).head? = some (Eff.showModal .passphrase) ∧
      Eff.callBackend (.load id p) ∈ loadFlow id true p true res) ∧
    (loadFlow id true p false res).all (fun e => !e.isBackend) = true := by
  cases res with
  | none =>
    refine ⟨⟨rfl, rfl⟩, ⟨rfl, ?_⟩, rfl⟩
    simp [loadFlow, promptPassphrase, backendDone]
  | some msg =>
    refine ⟨⟨rfl, rfl⟩, ⟨rfl, ?_⟩, rfl⟩
    simp [loadFlow, promptPassphrase, backendDone]

/-- C8: whenever a flow's backend call fails, the visible error becomes
exactly the action-prefixed backend message, the displayed list is retained
unchanged whatever a refresh would have produced, and no refresh effect
occurs anywhere in the failing flow's trace. -/
theorem flow_failure_retains_list (n k id name p msg : String) (key : LoadedKey)
    (s : UIState) (fresh : List displayedKey) :
    ((runTrace fresh s (addFlow n k true (some msg))).errorText =
        "failed to add key: " ++ msg ∧
      (runTrace fresh s (addFlow n k true (some msg))).displayed = s.displayed ∧
      Eff.updateKeys ∉ addFlow n k true (some msg)) ∧
    ((runTrace fresh s (loadFlow id true p true (some msg))).errorText =
        "failed to load key: " ++ msg ∧
      (runTrace fresh s (loadFlow id true p true (some msg))).displayed = s.displayed ∧
      Eff.updateKeys ∉ loadFlow id true p true (some msg)) ∧
    ((runTrace fresh s (loadFlow id false p true (some msg))).errorText =
        "failed to load key: " ++ msg ∧
      (runTrace fresh s (loadFlow id false p true (some msg))).displayed = s.displayed ∧
      Eff.updateKeys ∉ loadFlow id false p true (some msg)) ∧
    ((runTrace fresh s (unloadFlow key (some msg))).errorText =
        "failed to unload key: " ++ msg ∧
      (runTrace fresh s (unloadFlow key (some msg))).displayed = s.displayed ∧
      Eff.updateKeys ∉ unloadFlow key (some msg)) ∧
    ((runTrace fresh s (removeFlow id name true (some msg))).errorText =
        "failed to remove key: " ++ msg ∧
      (runTrace fresh s (removeFlow id name true (some msg))).displayed = s.displayed ∧
      Eff.updateKeys ∉ removeFlow id name true (some msg)) := by
  refine ⟨⟨rfl, rfl, ?_⟩, ⟨rfl, rfl, ?_⟩, ⟨rfl, rfl, ?_⟩, ⟨rfl, rfl, ?_⟩, ⟨rfl, rfl, ?_⟩⟩ <;>
    simp [addFlow, loadFlow, removeFlow, unloadFlow, promptAdd, promptPassphrase,
      promptRemove, backendDone]

/-- C9: on both resolution paths of the add dialog and of the passphrase
dialog, the firing handler clears the sensitive input fields (name, private
key, passphrase) strictly before the close-dialog effect, and the downstream
callback's effects all come after; on the cancelled path the callback
receives only empty strings, never the typed values. -/
theorem prompt_clears_before_close
    (cont : String → String → Bool → List Eff) (n k : String) (ok : Bool)
    (cont2 : String → Bool → List Eff) (p : String) (ok2 : Bool) :
    (∃ j, (promptAdd cont n k ok)[j]? = some (Eff.closeDialog .add) ∧
      (∃ i, i < j ∧ (promptAdd cont n k ok)[i]? = some (Eff.setValue .addName "")) ∧
      (∃ i, i < j ∧ (promptAdd cont n k ok)[i]? = some (Eff.setValue .addKey "")) ∧
      (promptAdd cont n k ok).drop (j + 1) =
        if ok then cont n k true else cont "" "" false) ∧
    ∃ j, (promptPassphrase cont2 p ok2)[j]? = some (Eff.closeDialog .passphrase) ∧
      (∃ i, i < j ∧
        (promptPassphrase cont2 p ok2)[i]? = some (Eff.setValue .passphraseInput "")) ∧
      (promptPassphrase cont2 p ok2).drop (j + 1) =
        if ok2 then cont2 p true else cont2 "" false := by
  constructor
  · refine ⟨5, ?_, ⟨1, by omega, ?_⟩, ⟨2, by omega, ?_⟩, ?_⟩ <;> cases ok <;>
      simp [promptAdd]
  · refine ⟨4, ?_, ⟨1, by omega, ?_⟩, ?_⟩ <;> cases ok2 <;>
      simp [promptPassphrase]
